import Mathlib

/-!
Shallow embedding of the attachment-upload pipeline of
`nodes/ChatWoot/ChatWootAttachment.node.ts`.

The JavaScript/TypeScript source is translated into executable Lean
definitions.  JavaScript runtime values that flow through the dynamic
parts of the code (header maps, the loosely typed additional-fields bag,
JSON values) are modelled by the inductive type `JsValue`; platform
primitives used by the source (`decodeURIComponent`, `new URL`,
`JSON.parse`, `JSON.stringify`, `Buffer.from`) are modelled by
executable Lean functions whose doc comments state the modelling
assumptions.  Exceptions are modelled with `Option`/`Except`.
-/

set_option autoImplicit false

namespace ChatWoot

/-- Model of a JavaScript runtime value.  Numbers are modelled by `Rat`
(JavaScript doubles are not modelled at bit level; every numeric literal
appearing in this development is an integer, where the two agree). -/
inductive JsValue where
  | undefined : JsValue
  | null : JsValue
  | bool : Bool → JsValue
  | num : Rat → JsValue
  | str : String → JsValue
  | arr : List JsValue → JsValue
  | obj : List (String × JsValue) → JsValue

/-- JavaScript truthiness (the implicit coercion used by `if (x)`,
`x || y` and `Boolean(x)`).  `NaN` does not arise in the model. -/
def jsTruthy : JsValue → Bool
  | .undefined => false
  | .null => false
  | .bool b => b
  | .num q => q != 0
  | .str s => s != ""
  | .arr _ => true
  | .obj _ => true

mutual

/-- Models the JavaScript coercion `String(v)`.  Array elements are
joined with a comma, with `null` and `undefined` elements rendered as the
empty string, as `Array.prototype.toString` does; non-integer numbers are
rendered with the `Rat` printer (a modelling simplification, unreachable
in this development). -/
def jsToString : JsValue → String
  | .undefined => "undefined"
  | .null => "null"
  | .bool b => if b then "true" else "false"
  | .num q => if q.den = 1 then toString q.num else toString q
  | .str s => s
  | .arr es => String.intercalate "," (jsArrayElemStrings es)
  | .obj _ => "[object Object]"

/-- Helper of `jsToString` for the elements of an array. -/
def jsArrayElemStrings : List JsValue → List String
  | [] => []
  | .null :: rest => "" :: jsArrayElemStrings rest
  | .undefined :: rest => "" :: jsArrayElemStrings rest
  | v :: rest => jsToString v :: jsArrayElemStrings rest

end

/-- Model of a value stored in a Node.js response-header object
(`string | string[] | number | undefined | null`, plus booleans so that
the `String(value)` fallback of the source is exercised by the model). -/
inductive HeaderValue where
  | str : String → HeaderValue
  | arr : List String → HeaderValue
  | null : HeaderValue
  | undefined : HeaderValue
  | num : Int → HeaderValue
  | bool : Bool → HeaderValue

/-- The value-extraction part of `getHeaderValue` (source lines 19-26):
array values yield their first element, `undefined`/`null` yield nothing,
anything else is coerced with `String(value)`. -/
def headerExtract : HeaderValue → Option String
  | .arr ss => ss.head?
  | .undefined => none
  | .null => none
  | .str s => some s
  | .num n => some (toString n)
  | .bool b => some (if b then "true" else "false")

/-- Model of the JavaScript `toLowerCase()`: lowercase character by
character (`Char.toLower` handles the ASCII range, which covers header
names; the Unicode-only differences are irrelevant here). -/
def lowerString (s : String) : String := String.mk (s.data.map Char.toLower)

/-- Embedding of `getHeaderValue(headers, name)` (source lines 14-27):
find the first entry whose key matches case-insensitively, then extract
its value. -/
def getHeaderValue (headers : List (String × HeaderValue)) (name : String) : Option String :=
  match headers.find? (fun kv => lowerString kv.1 == lowerString name) with
  | none => none
  | some kv => headerExtract kv.2

/-- Value of an ASCII hex digit, accepting both cases, as the URI
percent-escape grammar does. -/
def hexDigitVal? (c : Char) : Option Nat :=
  if 48 ≤ c.toNat ∧ c.toNat ≤ 57 then some (c.toNat - 48)
  else if 97 ≤ c.toNat ∧ c.toNat ≤ 102 then some (c.toNat - 97 + 10)
  else if 65 ≤ c.toNat ∧ c.toNat ≤ 70 then some (c.toNat - 65 + 10)
  else none

/-- Parse a percent escape `%XY` at the head of the input, returning the
byte value and the remaining input. -/
def percentByte : List Char → Option (Nat × List Char)
  | '%' :: h1 :: h2 :: rest => do
    let a ← hexDigitVal? h1
    let b ← hexDigitVal? h2
    pure (16 * a + b, rest)
  | _ => none

/-- Parse a percent-escaped UTF-8 continuation byte (`10xxxxxx`),
returning its six payload bits. -/
def contByte : List Char → Option (Nat × List Char) := fun cs => do
  let (b, rest) ← percentByte cs
  if 0x80 ≤ b ∧ b ≤ 0xBF then pure (b - 0x80, rest) else none

/-- One step of the ECMAScript `Decode` algorithm underlying
`decodeURIComponent`: decode a single code point (a literal character, or
one maximal run of percent escapes forming one UTF-8-encoded code point)
and return the remaining input.  Overlong encodings, surrogate code
points and out-of-range code points are rejected, as the algorithm
requires. -/
def decodeStep : List Char → Option (Char × List Char)
  | [] => none
  | '%' :: rest0 => do
    let (b1, r1) ← percentByte ('%' :: rest0)
    if b1 < 0x80 then
      pure (Char.ofNat b1, r1)
    else if 0xC2 ≤ b1 ∧ b1 ≤ 0xDF then do
      let (c1, r2) ← contByte r1
      pure (Char.ofNat ((b1 - 0xC0) * 0x40 + c1), r2)
    else if 0xE0 ≤ b1 ∧ b1 ≤ 0xEF then do
      let (c1, r2) ← contByte r1
      let (c2, r3) ← contByte r2
      let cp := (b1 - 0xE0) * 0x1000 + c1 * 0x40 + c2
      if cp < 0x800 then none
      else if 0xD800 ≤ cp ∧ cp ≤ 0xDFFF then none
      else pure (Char.ofNat cp, r3)
    else if 0xF0 ≤ b1 ∧ b1 ≤ 0xF4 then do
      let (c1, r2) ← contByte r1
      let (c2, r3) ← contByte r2
      let (c3, r4) ← contByte r3
      let cp := (b1 - 0xF0) * 0x40000 + c1 * 0x1000 + c2 * 0x40 + c3
      if cp < 0x10000 ∨ 0x10FFFF < cp then none
      else pure (Char.ofNat cp, r4)
    else none
  | c :: rest => some (c, rest)

/-- Fuelled driver for `decodeStep`.  Each step consumes at least one
input character, so fuel equal to the input length always suffices. -/
def decodeLoop : Nat → List Char → Option (List Char)
  | _, [] => some []
  | 0, _ :: _ => none
  | fuel + 1, cs => do
    let (c, rest) ← decodeStep cs
    let out ← decodeLoop fuel rest
    pure (c :: out)

/-- Model of the JavaScript `decodeURIComponent`: `none` models a thrown
`URIError` (malformed escape or invalid UTF-8 byte sequence). -/
def decodeUriComponentJs (s : String) : Option String :=
  (decodeLoop s.length s.data).map String.mk

/-- Case-insensitive literal matching: `matchesPrefixCI lit cs` succeeds
when the lowercase pattern `lit` matches the head of `cs` ignoring case,
returning the remaining input. -/
def matchesPrefixCI : List Char → List Char → Option (List Char)
  | [], cs => some cs
  | _ :: _, [] => none
  | l :: ls, c :: cs => if c.toLower = l then matchesPrefixCI ls cs else none

/-- The literal `filename` of the content-disposition regex. -/
def filenameLit : List Char := ['f', 'i', 'l', 'e', 'n', 'a', 'm', 'e']

/-- The literal `UTF-8\x27\x27` alternative of the content-disposition
regex, lowercased. -/
def utf8PrefixLit : List Char := ['u', 't', 'f', '-', '8', '\x27', '\x27']

/-- The capture group `([^\x22;]+)` of the content-disposition regex:
take the maximal run of characters that are neither a double quote nor a
semicolon; the run must be non-empty. -/
def takeCapture (cs : List Char) : Option String :=
  if (cs.takeWhile (fun c => c != '\x22' && c != ';')).isEmpty then none
  else some (String.mk (cs.takeWhile (fun c => c != '\x22' && c != ';')))

/-- Backtracking for the part of the regex after the `=` sign:
`(?:UTF-8\x27\x27|\x22)?([^\x22;]+)` with the alternatives tried in
regex order (the `UTF-8` prefix, then a double quote, then nothing). -/
def afterEq (cs : List Char) : Option String :=
  (match matchesPrefixCI utf8PrefixLit cs with
    | some r => takeCapture r
    | none => none)
  <|>
  (match cs with
    | '\x22' :: r => takeCapture r
    | _ => none)
  <|>
  takeCapture cs

/-- Attempt to match the whole regex `filename\*?=(?:UTF-8\x27\x27|\x22)?([^\x22;]+)`
(case-insensitively) at the start of the input, returning the capture
group.  A `*` not followed by `=` fails, as regex backtracking does. -/
def matchCDAt (cs : List Char) : Option String :=
  match matchesPrefixCI filenameLit cs with
  | none => none
  | some rest =>
    match rest with
    | '*' :: '=' :: r => afterEq r
    | '=' :: r => afterEq r
    | _ => none

/-- Leftmost-match search of the regex over the header, as
`String.prototype.match` performs. -/
def scanCD : List Char → Option String
  | [] => none
  | c :: rest => matchCDAt (c :: rest) <|> scanCD rest

/-- Embedding of `parseContentDispositionFilename(header)` (source lines
29-43): falsy header yields nothing; otherwise match the regex, take the
first capture group and percent-decode it, falling back to the raw token
when decoding throws. -/
def parseContentDispositionFilename (header : Option String) : Option String :=
  match header with
  | none => none
  | some h =>
    if h = "" then none
    else
      match scanCD h.data with
      | none => none
      | some raw =>
        match decodeUriComponentJs raw with
        | some s => some s
        | none => some raw

/-- Scheme characters after the first: ASCII alphanumeric, `+`, `-`, `.`
per the WHATWG URL scheme grammar. -/
def isSchemeChar (c : Char) : Bool :=
  c.isAlphanum || c == '+' || c == '-' || c == '.'

/-- Scan the tail of a candidate URL scheme up to the colon, returning
the lowercased scheme characters and the input after the colon. -/
def schemeSplitAux : List Char → Option (List Char × List Char)
  | [] => none
  | c :: rest =>
    if c = ':' then some ([], rest)
    else if isSchemeChar c then
      match schemeSplitAux rest with
      | some (sch, r) => some (c.toLower :: sch, r)
      | none => none
    else none

/-- Split a candidate URL into its lowercased scheme and the remainder
after the colon; fails when no valid scheme terminated by a colon is
present (the main way `new URL` throws). -/
def schemeSplit : List Char → Option (List Char × List Char)
  | [] => none
  | c :: rest =>
    if c.isAlpha then
      match schemeSplitAux rest with
      | some (sch, r) => some (c.toLower :: sch, r)
      | none => none
    else none

/-- The WHATWG special schemes whose URLs carry an authority that must be
non-empty. -/
def specialSchemes : List (List Char) :=
  [['h', 't', 't', 'p'], ['h', 't', 't', 'p', 's'], ['w', 's'], ['w', 's', 's'],
    ['f', 't', 'p']]

/-- Model of the `pathname` of `new URL(url)` (WHATWG URL parsing).
`none` models a thrown `TypeError`.  Modelling assumptions, stated
against the full standard: leading/trailing C0-control-or-space is
trimmed and embedded tab/newline removed as the standard requires; a
valid scheme followed by a colon is required; for special schemes all
slashes and backslashes after the colon are skipped and the authority up
to the next delimiter must be non-empty (except for `file:`); the
pathname is the remainder up to the query or fragment, with backslashes
normalised to slashes.  Percent-encoding of path characters, dot-segment
normalisation, port validation and host validation are not modelled; no
claim in this development depends on them. -/
def urlPathname (url : String) : Option String :=
  let cleaned :=
    (((url.data.dropWhile (fun c => c.toNat ≤ 32)).reverse.dropWhile
        (fun c => c.toNat ≤ 32)).reverse).filter
      (fun c => c != '\t' && c != '\n' && c != '\x0d')
  match schemeSplit cleaned with
  | none => none
  | some (scheme, rest) =>
    if scheme ∈ specialSchemes ∨ scheme = ['f', 'i', 'l', 'e'] then
      let afterSlashes := rest.dropWhile (fun c => c == '/' || c == '\x5c')
      let authority :=
        afterSlashes.takeWhile
          (fun c => !(c == '/' || c == '\x5c' || c == '?' || c == '#'))
      let pathAndAfter :=
        afterSlashes.dropWhile
          (fun c => !(c == '/' || c == '\x5c' || c == '?' || c == '#'))
      if authority.isEmpty ∧ scheme ≠ ['f', 'i', 'l', 'e'] then none
      else
        let path := pathAndAfter.takeWhile (fun c => !(c == '?' || c == '#'))
        let path := path.map (fun c => if c == '\x5c' then '/' else c)
        if path.isEmpty then some "/" else some (String.mk path)
    else
      some (String.mk (rest.takeWhile (fun c => !(c == '?' || c == '#'))))

/-- Model of the JavaScript `String.prototype.split` with a single
character separator. -/
def splitOnChar (sep : Char) : List Char → List (List Char)
  | [] => [[]]
  | c :: rest =>
    if c = sep then [] :: splitOnChar sep rest
    else
      match splitOnChar sep rest with
      | [] => [[c]]
      | g :: gs => (c :: g) :: gs

/-- Embedding of `fileNameFromUrl(url)` (source lines 45-53): parse the
URL (a thrown `TypeError` is caught and yields `undefined`), split the
pathname on `/`, keep the non-empty segments, and return the last one;
the source writes `segments.pop() || undefined`, so an empty result
yields `undefined`. -/
def fileNameFromUrl (url : String) : Option String :=
  match urlPathname url with
  | none => none
  | some pathname =>
    match (((splitOnChar '/' pathname.data).map String.mk).filter
        (fun s => s != "")).getLast? with
    | none => none
    | some s => if s = "" then none else some s

/-- JSON insignificant whitespace (space, tab, line feed, carriage
return). -/
def jsonWsChar (c : Char) : Bool :=
  c == ' ' || c == '\t' || c == '\n' || c == '\x0d'

/-- Drop leading JSON whitespace. -/
def dropJsonWs (cs : List Char) : List Char := cs.dropWhile jsonWsChar

/-- Numeric value of a list of decimal digits. -/
def digitsToNat (cs : List Char) : Nat :=
  cs.foldl (fun a c => 10 * a + (c.toNat - 48)) 0

/-- Fuelled parser for the body of a JSON string after the opening
quote, returning the decoded characters and the input after the closing
quote.  Every step consumes at least one input character, so fuel
exceeding the input length always suffices (the entry point
`jsonString` supplies it).  JSON escapes are processed; raw control
characters are rejected.  A `\u`-escaped surrogate pair is combined
into one code point; a lone surrogate (legal in JavaScript strings, not
representable in a Lean `Char`) is modelled by U+FFFD. -/
def jsonStringAux : Nat → List Char → Option (List Char × List Char)
  | _, '\x22' :: rest => some ([], rest)
  | 0, _ => none
  | fuel + 1, '\x5c' :: '\x22' :: r =>
    (jsonStringAux fuel r).map (fun p => ('\x22' :: p.1, p.2))
  | fuel + 1, '\x5c' :: '\x5c' :: r =>
    (jsonStringAux fuel r).map (fun p => ('\x5c' :: p.1, p.2))
  | fuel + 1, '\x5c' :: '/' :: r =>
    (jsonStringAux fuel r).map (fun p => ('/' :: p.1, p.2))
  | fuel + 1, '\x5c' :: 'b' :: r =>
    (jsonStringAux fuel r).map (fun p => (Char.ofNat 8 :: p.1, p.2))
  | fuel + 1, '\x5c' :: 'f' :: r =>
    (jsonStringAux fuel r).map (fun p => (Char.ofNat 12 :: p.1, p.2))
  | fuel + 1, '\x5c' :: 'n' :: r =>
    (jsonStringAux fuel r).map (fun p => ('\n' :: p.1, p.2))
  | fuel + 1, '\x5c' :: 'r' :: r =>
    (jsonStringAux fuel r).map (fun p => (Char.ofNat 13 :: p.1, p.2))
  | fuel + 1, '\x5c' :: 't' :: r =>
    (jsonStringAux fuel r).map (fun p => ('\t' :: p.1, p.2))
  | fuel + 1, '\x5c' :: 'u' :: h1 :: h2 :: h3 :: h4 :: r => do
    let a ← hexDigitVal? h1
    let b ← hexDigitVal? h2
    let c ← hexDigitVal? h3
    let d ← hexDigitVal? h4
    let n := ((a * 16 + b) * 16 + c) * 16 + d
    if 0xD800 ≤ n ∧ n ≤ 0xDBFF then
      match r with
      | '\x5c' :: 'u' :: g1 :: g2 :: g3 :: g4 :: r2 => do
        let a2 ← hexDigitVal? g1
        let b2 ← hexDigitVal? g2
        let c2 ← hexDigitVal? g3
        let d2 ← hexDigitVal? g4
        let m := ((a2 * 16 + b2) * 16 + c2) * 16 + d2
        if 0xDC00 ≤ m ∧ m ≤ 0xDFFF then
          let cp := 0x10000 + (n - 0xD800) * 0x400 + (m - 0xDC00)
          (jsonStringAux fuel r2).map (fun p => (Char.ofNat cp :: p.1, p.2))
        else
          (jsonStringAux fuel r).map (fun p => (Char.ofNat 0xFFFD :: p.1, p.2))
      | _ => (jsonStringAux fuel r).map (fun p => (Char.ofNat 0xFFFD :: p.1, p.2))
    else if 0xDC00 ≤ n ∧ n ≤ 0xDFFF then
      (jsonStringAux fuel r).map (fun p => (Char.ofNat 0xFFFD :: p.1, p.2))
    else
      (jsonStringAux fuel r).map (fun p => (Char.ofNat n :: p.1, p.2))
  | _, '\x5c' :: _ => none
  | _, [] => none
  | fuel + 1, c :: r =>
    if c.toNat < 0x20 then none
    else (jsonStringAux fuel r).map (fun p => (c :: p.1, p.2))

/-- Parse a JSON string body with always-sufficient fuel. -/
def jsonString (cs : List Char) : Option (List Char × List Char) :=
  jsonStringAux (cs.length + 1) cs

/-- Parse a JSON number at the head of the input (the grammar
`-? int frac? exp?` with no leading zeros), returning its exact rational
value and the remaining input. -/
def jsonNumber (cs : List Char) : Option (Rat × List Char) :=
  let (neg, cs1) := match cs with
    | '-' :: r => (true, r)
    | _ => (false, cs)
  let intDigits := cs1.takeWhile Char.isDigit
  let cs2 := cs1.dropWhile Char.isDigit
  if intDigits.isEmpty then none
  else if intDigits.length > 1 ∧ intDigits.head? = some '0' then none
  else
    let iv : Rat := (digitsToNat intDigits : Nat)
    let fracStep : Option (Rat × List Char) := match cs2 with
      | '.' :: r =>
        let fracDigits := r.takeWhile Char.isDigit
        let r2 := r.dropWhile Char.isDigit
        if fracDigits.isEmpty then none
        else some (iv + (digitsToNat fracDigits : Rat) / ((10 : Rat) ^ fracDigits.length), r2)
      | _ => some (iv, cs2)
    match fracStep with
    | none => none
    | some (q1, cs3) =>
      let expStep : Option (Rat × List Char) := match cs3 with
        | 'e' :: r => some (1, r)
        | 'E' :: r => some (1, r)
        | _ => none
      match expStep with
      | none => some (if neg then -q1 else q1, cs3)
      | some (_, r) =>
        let (eneg, r1) := match r with
          | '+' :: r2 => (false, r2)
          | '-' :: r2 => (true, r2)
          | _ => (false, r)
        let expDigits := r1.takeWhile Char.isDigit
        let r2 := r1.dropWhile Char.isDigit
        if expDigits.isEmpty then none
        else
          let e := digitsToNat expDigits
          let q2 := if eneg then q1 / ((10 : Rat) ^ e) else q1 * ((10 : Rat) ^ e)
          some (if neg then -q2 else q2, r2)

mutual

/-- Fuelled parser for a JSON value at the head of the input (leading
whitespace already consumed).  Fuel bounds the nesting depth; the
top-level entry point supplies fuel no smaller than the input length,
which always suffices because every nesting level consumes a character. -/
def jsonValue : Nat → List Char → Option (JsValue × List Char)
  | 0, _ => none
  | fuel + 1, cs =>
    match cs with
    | 't' :: 'r' :: 'u' :: 'e' :: r => some (.bool true, r)
    | 'f' :: 'a' :: 'l' :: 's' :: 'e' :: r => some (.bool false, r)
    | 'n' :: 'u' :: 'l' :: 'l' :: r => some (.null, r)
    | '\x22' :: r =>
      (jsonString r).map (fun p => (.str (String.mk p.1), p.2))
    | '\x7b' :: r =>
      (match dropJsonWs r with
        | '\x7d' :: r2 => some (.obj [], r2)
        | r1 => (jsonMembers fuel r1).map (fun p => (.obj p.1, p.2)))
    | '[' :: r =>
      (match dropJsonWs r with
        | ']' :: r2 => some (.arr [], r2)
        | r1 => (jsonElements fuel r1).map (fun p => (.arr p.1, p.2)))
    | _ => (jsonNumber cs).map (fun p => (.num p.1, p.2))

/-- A JSON element: a value surrounded by optional whitespace. -/
def jsonElement : Nat → List Char → Option (JsValue × List Char)
  | 0, _ => none
  | fuel + 1, cs => do
    let (v, r) ← jsonValue fuel (dropJsonWs cs)
    pure (v, dropJsonWs r)

/-- One or more members of a JSON object, up to and including the closing
brace.  Duplicate keys are kept in order (JavaScript would keep the last
occurrence; no claim depends on it). -/
def jsonMembers : Nat → List Char → Option (List (String × JsValue) × List Char)
  | 0, _ => none
  | fuel + 1, cs =>
    match dropJsonWs cs with
    | '\x22' :: r => do
      let (kcs, r2) ← jsonString r
      match dropJsonWs r2 with
      | ':' :: r4 => do
        let (v, r5) ← jsonElement fuel r4
        match r5 with
        | ',' :: r6 => do
          let (rest, r7) ← jsonMembers fuel r6
          pure ((String.mk kcs, v) :: rest, r7)
        | '\x7d' :: r6 => pure ([(String.mk kcs, v)], r6)
        | _ => none
      | _ => none
    | _ => none

/-- One or more elements of a JSON array, up to and including the closing
bracket. -/
def jsonElements : Nat → List Char → Option (List JsValue × List Char)
  | 0, _ => none
  | fuel + 1, cs => do
    let (v, r) ← jsonElement fuel cs
    match r with
    | ',' :: r2 => do
      let (rest, r3) ← jsonElements fuel r2
      pure (v :: rest, r3)
    | ']' :: r2 => pure ([v], r2)
    | _ => none

end

/-- Model of the JavaScript `JSON.parse`: `none` models a thrown
`SyntaxError`.  The whole input must be consumed. -/
def jsonParse (s : String) : Option JsValue :=
  match jsonElement (s.length + 1) s.data with
  | some (v, []) => some v
  | _ => none

/-- Escape one character for a JSON string literal, as `JSON.stringify`
does. -/
def jsonEscapeChar (c : Char) : List Char :=
  if c = '\x22' then ['\x5c', '\x22']
  else if c = '\x5c' then ['\x5c', '\x5c']
  else if c.toNat = 8 then ['\x5c', 'b']
  else if c.toNat = 9 then ['\x5c', 't']
  else if c.toNat = 10 then ['\x5c', 'n']
  else if c.toNat = 12 then ['\x5c', 'f']
  else if c.toNat = 13 then ['\x5c', 'r']
  else if c.toNat < 0x20 then
    ['\x5c', 'u', '0', '0',
      (if c.toNat / 16 < 10 then Char.ofNat (48 + c.toNat / 16)
        else Char.ofNat (87 + c.toNat / 16)),
      (if c.toNat % 16 < 10 then Char.ofNat (48 + c.toNat % 16)
        else Char.ofNat (87 + c.toNat % 16))]
  else [c]

/-- Quote and escape a string as a JSON string literal. -/
def jsonQuote (s : String) : String :=
  "\x22" ++ String.mk (s.data.map jsonEscapeChar).flatten ++ "\x22"

mutual

/-- Model of the JavaScript `JSON.stringify` on the values produced by
`parseJsonField` (plain JSON data).  A top-level `undefined` is rendered
as `null` (in JavaScript `JSON.stringify(undefined)` is `undefined`;
that case is unreachable here because appended values are truthy);
`undefined` inside an array is rendered `null` and inside an object the
member is dropped, as `JSON.stringify` does. -/
def jsonStringify : JsValue → String
  | .undefined => "null"
  | .null => "null"
  | .bool b => if b then "true" else "false"
  | .num q => if q.den = 1 then toString q.num else toString q
  | .str s => jsonQuote s
  | .arr es => "[" ++ String.intercalate "," (jsonStringifyElems es) ++ "]"
  | .obj fs => "\x7b" ++ String.intercalate "," (jsonStringifyFields fs) ++ "\x7d"

/-- Array elements for `jsonStringify`. -/
def jsonStringifyElems : List JsValue → List String
  | [] => []
  | v :: rest => jsonStringify v :: jsonStringifyElems rest

/-- Object members for `jsonStringify`; members with `undefined` values
are dropped. -/
def jsonStringifyFields : List (String × JsValue) → List String
  | [] => []
  | (_, .undefined) :: rest => jsonStringifyFields rest
  | (k, v) :: rest => (jsonQuote k ++ ":" ++ jsonStringify v) :: jsonStringifyFields rest

end

/-- A character stripped by the JavaScript `trim()` (ASCII whitespace
and line terminators; the Unicode-only space separators are irrelevant
here). -/
def jsSpace (c : Char) : Bool :=
  c == ' ' || c == '\t' || c == '\n' || c == '\x0d' || c == '\x0b' || c == '\x0c'

/-- Model of the JavaScript `String.prototype.trim`. -/
def jsTrim (s : String) : String :=
  String.mk (((s.data.dropWhile jsSpace).reverse.dropWhile jsSpace).reverse)

/-- Embedding of `parseJsonField(node, value, label)` (source lines
55-74).  `Except.error` models a thrown `NodeOperationError` with the
given message. -/
def parseJsonField (value : JsValue) (label : String) : Except String (Option JsValue) :=
  match value with
  | .undefined => .ok none
  | .null => .ok none
  | .obj fields => .ok (some (.obj fields))
  | .arr es => .ok (some (.arr es))
  | .str s =>
    if s = "" then .ok none
    else
      if jsTrim s = "" then .ok none
      else
        match jsonParse (jsTrim s) with
        | some v => .ok (some v)
        | none => .error ("Cannot parse " ++ label ++ " as JSON.")
  | .num _ => .error ("Unsupported " ++ label ++ " value type.")
  | .bool _ => .error ("Unsupported " ++ label ++ " value type.")

/-- Embedding of `sanitizeBaseUrl(url)` (source lines 76-78), i.e.
`url.replace(/\x5c\/+$/, \x27\x27)`: remove the maximal run of trailing
slashes. -/
def sanitizeBaseUrl (url : String) : String :=
  String.mk ((url.data.reverse.dropWhile (fun c => c == '/')).reverse)

/-- The `additionalFields` collection parameter of the node, a
loosely-typed JavaScript object.  A field that is `none` models a key
absent from the object (reading it yields `undefined`); `some v` models
the key being present with value `v` (`hasOwnProperty` is true).  The
`attachmentMimeType` field is read through the TypeScript cast
`as string | undefined`, hence `Option String`. -/
structure AdditionalFields where
  content : Option JsValue
  messageType : Option JsValue
  privateFlag : Option JsValue
  contentType : Option JsValue
  contentAttributes : Option JsValue
  templateParams : Option JsValue
  attachmentMimeType : Option String

/-- Reading a possibly absent object key in JavaScript yields
`undefined`. -/
def keyRead (o : Option JsValue) : JsValue := o.getD .undefined

/-- The per-item node parameters read at the top of the loop body
(source lines 214-218).  `fileNameOverride` is read with default
`\x27\x27` and cast `as string`. -/
structure Item where
  accountId : Int
  conversationId : Int
  attachmentUrl : String
  fileNameOverride : String
  additionalFields : AdditionalFields

/-- The raw body of the download response: the transport may return a
`Buffer`, a string, or an `ArrayBuffer` (source line 227). -/
inductive JsBody where
  | buffer : List Nat → JsBody
  | str : String → JsBody
  | arraybuffer : List Nat → JsBody

/-- Normalisation of the response body to a byte buffer (source lines
231-239): a `Buffer` is used as is, a string is encoded to its UTF-8
bytes by `Buffer.from`, and an `ArrayBuffer` is wrapped byte for byte. -/
def toBuffer : JsBody → List Nat
  | .buffer bs => bs
  | .str s => s.toUTF8.toList.map (fun b => b.toNat)
  | .arraybuffer bs => bs

/-- The full download response requested with `returnFullResponse`
(source lines 220-229): body plus response headers. -/
structure DownloadResponse where
  body : JsBody
  headers : List (String × HeaderValue)

/-- One part of a multipart form: either the file part (filename,
content type, bytes) or a plain string field. -/
inductive FormPart where
  | file : String → String → List Nat → FormPart
  | text : String → FormPart

/-- The JavaScript `a || b` chain over possibly undefined strings, where
the empty string is falsy. -/
def orElseFalsy (a : Option String) (b : String) : String :=
  match a with
  | some s => if s = "" then b else s
  | none => b

/-- Embedding of the file-name derivation (source line 243):
`fileNameOverride || headerFileName || fileNameFromUrl(attachmentUrl) || \x27attachment\x27`
with `headerFileName` parsed from the content-disposition header
(source line 242). -/
def deriveFileName (fileNameOverride : String)
    (headers : List (String × HeaderValue)) (attachmentUrl : String) : String :=
  if fileNameOverride = "" then
    orElseFalsy (parseContentDispositionFilename (getHeaderValue headers "content-disposition"))
      (orElseFalsy (fileNameFromUrl attachmentUrl) "attachment")
  else fileNameOverride

/-- Embedding of the MIME-type derivation (source lines 244-246):
`additionalFields.attachmentMimeType || contentTypeHeader || \x27application/octet-stream\x27`. -/
def deriveMimeType (attachmentMimeType : Option String)
    (headers : List (String × HeaderValue)) : String :=
  orElseFalsy attachmentMimeType
    (orElseFalsy (getHeaderValue headers "content-type") "application/octet-stream")

/-- Embedding of the `content` form field (source lines 254-256):
appended when the value is neither `undefined` nor the empty string,
coerced with `String(...)`. -/
def contentParts (content : JsValue) : List (String × FormPart) :=
  match content with
  | .undefined => []
  | .str s => if s = "" then [] else [("content", FormPart.text s)]
  | v => [("content", FormPart.text (jsToString v))]

/-- Embedding of the `message_type` form field (source lines 257-259):
appended when the value is truthy, coerced with `String(...)`. -/
def messageTypeParts (messageType : JsValue) : List (String × FormPart) :=
  if jsTruthy messageType then [("message_type", FormPart.text (jsToString messageType))]
  else []

/-- Embedding of the `private` form field (source lines 260-263):
appended whenever the key is present in `additionalFields`
(`hasOwnProperty`), with the string rendering of `Boolean(value)`. -/
def privateParts (privateFlag : Option JsValue) : List (String × FormPart) :=
  match privateFlag with
  | some v => [("private", FormPart.text (if jsTruthy v then "true" else "false"))]
  | none => []

/-- Embedding of the `content_type` form field (source lines 264-266):
appended when the value is truthy, coerced with `String(...)`. -/
def contentTypeParts (contentType : JsValue) : List (String × FormPart) :=
  if jsTruthy contentType then [("content_type", FormPart.text (jsToString contentType))]
  else []

/-- Embedding of the appending of a parsed JSON field (source lines
268-275): the parsed value is appended JSON-serialised when it is truthy
(any object is; `parseJsonField` may also return non-object JSON values,
which are appended only if truthy, exactly as the source guard does). -/
def jsonFieldParts (fieldName : String) (parsed : Option JsValue) : List (String × FormPart) :=
  match parsed with
  | some v => if jsTruthy v then [(fieldName, FormPart.text (jsonStringify v))] else []
  | none => []

/-- The submission request assembled for one item (source lines
277-282): method, URL, the form-data content-type header carrying the
form boundary, and the multipart form itself. -/
structure SubmitRequest where
  method : String
  url : String
  headers : List (String × String)
  form : List (String × FormPart)

/-- Embedding of the per-item pipeline between a successful download and
the submission (source lines 231-282): normalise the body, derive file
name and MIME type, assemble the multipart form (the `boundary` argument
models the random boundary chosen by `new FormData()`), and parse the
optional JSON fields, whose `NodeOperationError` aborts the item. -/
def buildSubmission (baseUrl : String) (item : Item) (boundary : String)
    (resp : DownloadResponse) : Except String SubmitRequest := do
  let attachmentBuffer := toBuffer resp.body
  let headers := resp.headers
  let derivedFileName := deriveFileName item.fileNameOverride headers item.attachmentUrl
  let mimeType := deriveMimeType item.additionalFields.attachmentMimeType headers
  let contentAttributes ← parseJsonField (keyRead item.additionalFields.contentAttributes)
    "Content Attributes"
  let templateParams ← parseJsonField (keyRead item.additionalFields.templateParams)
    "Template Params"
  pure (SubmitRequest.mk "POST"
    (baseUrl ++ "/api/v1/accounts/" ++ toString item.accountId ++ "/conversations/"
      ++ toString item.conversationId ++ "/messages")
    [("content-type", "multipart/form-data; boundary=" ++ boundary)]
    ([("attachments[]", FormPart.file derivedFileName mimeType attachmentBuffer)]
      ++ contentParts (keyRead item.additionalFields.content)
      ++ messageTypeParts (keyRead item.additionalFields.messageType)
      ++ privateParts item.additionalFields.privateFlag
      ++ contentTypeParts (keyRead item.additionalFields.contentType)
      ++ jsonFieldParts "content_attributes" contentAttributes
      ++ jsonFieldParts "template_params" templateParams))

/-- Embedding of the whole `try` block for one item (source lines
213-287): download (`download` models `this.helpers.httpRequest`; its
`Except.error` models a network/HTTP rejection), build and submit the
request (`submit` models `httpRequestWithAuthentication`), and normalise
the response, parsing it as JSON when the transport returned a string
(a parse failure there throws, caught by the per-item handler). -/
def processItem (baseUrl : String) (item : Item) (boundary : String)
    (download : Except String DownloadResponse)
    (submit : SubmitRequest → Except String JsValue) : Except String JsValue := do
  let resp ← download
  let req ← buildSubmission baseUrl item boundary resp
  let response ← submit req
  match response with
  | .str s =>
    match jsonParse s with
    | some v => Except.ok v
    | none => Except.error "Unexpected token in JSON"
  | v => Except.ok v

/-- One output record pushed to `returnItems`: the `json` payload and the
`pairedItem` index (source lines 287 and 290). -/
structure SubmissionResult where
  json : JsValue
  pairedItem : Nat

/-- The record produced for the item at index `idx` when the node runs in
failure-tolerant mode: the normalised response on success, or the
`(error: message)` object of the catch handler (source line 290). -/
def itemOutcome (baseUrl : String) (idx : Nat) (item : Item) (boundary : String)
    (download : Except String DownloadResponse)
    (submit : SubmitRequest → Except String JsValue) : SubmissionResult :=
  match processItem baseUrl item boundary download submit with
  | .ok j => SubmissionResult.mk j idx
  | .error m => SubmissionResult.mk (JsValue.obj [("error", JsValue.str m)]) idx

/-- Embedding of the item loop of `execute` (source lines 212-295).  The
index-dependent arguments model the ambient world: `download idx` is the
outcome of the GET for item `idx`, `submit idx` the outcome of the POST,
`boundary idx` the form boundary generated for item `idx`.  In
failure-tolerant mode a failed item contributes its error object and the
loop continues; otherwise the loop aborts with the error (the source
wraps it in a `NodeApiError`; the message is carried through). -/
def executeLoop (continueOnFail : Bool) (baseUrl : String)
    (download : Nat → Except String DownloadResponse)
    (submit : Nat → SubmitRequest → Except String JsValue)
    (boundary : Nat → String) : Nat → List Item → Except String (List SubmissionResult)
  | _, [] => .ok []
  | idx, item :: rest =>
    match processItem baseUrl item (boundary idx) (download idx) (submit idx) with
    | .ok j =>
      (executeLoop continueOnFail baseUrl download submit boundary (idx + 1) rest).map
        (fun rs => SubmissionResult.mk j idx :: rs)
    | .error m =>
      if continueOnFail then
        (executeLoop continueOnFail baseUrl download submit boundary (idx + 1) rest).map
          (fun rs => SubmissionResult.mk (JsValue.obj [("error", JsValue.str m)]) idx :: rs)
      else .error m

/-- The reference list of results for the loop in failure-tolerant mode:
one `itemOutcome` per item, indices increasing from `idx`. -/
def loopResults (baseUrl : String)
    (download : Nat → Except String DownloadResponse)
    (submit : Nat → SubmitRequest → Except String JsValue)
    (boundary : Nat → String) : Nat → List Item → List SubmissionResult
  | _, [] => []
  | idx, item :: rest =>
    itemOutcome baseUrl idx item (boundary idx) (download idx) (submit idx)
      :: loopResults baseUrl download submit boundary (idx + 1) rest

/-- Embedding of `ChatWootAttachment.execute` (source lines 201-298):
validate the credential URL once before the loop (a falsy `url` throws a
`NodeOperationError`, fatal for the whole batch), strip trailing slashes
from it, then run the item loop. -/
def execute (continueOnFail : Bool) (credentialsUrl : JsValue) (items : List Item)
    (download : Nat → Except String DownloadResponse)
    (submit : Nat → SubmitRequest → Except String JsValue)
    (boundary : Nat → String) : Except String (List SubmissionResult) :=
  if jsTruthy credentialsUrl then
    executeLoop continueOnFail (sanitizeBaseUrl (jsToString credentialsUrl))
      download submit boundary 0 items
  else Except.error "ChatWoot API URL is missing in credentials."

/-- A concrete additional-fields bag used by concrete instantiations. -/
def sampleFields : AdditionalFields :=
  AdditionalFields.mk none none none none none none (some "image/png")

/-- A concrete input item whose download will fail. -/
def sampleItemA : Item := Item.mk 1 2 "https://x.test/a.png" "a.png" sampleFields

/-- A concrete input item whose download will succeed. -/
def sampleItemB : Item := Item.mk 1 2 "https://x.test/b.png" "b.png" sampleFields

/-- A concrete download oracle: item 0 fails, the rest succeed. -/
def sampleDownload : Nat → Except String DownloadResponse := fun i =>
  if i = 0 then Except.error "getaddrinfo ENOTFOUND"
  else Except.ok (DownloadResponse.mk (JsBody.buffer [1, 2, 3]) [])

/-- A concrete submit oracle returning a fixed JSON object. -/
def sampleSubmit : Nat → SubmitRequest → Except String JsValue := fun _ _ =>
  Except.ok (JsValue.obj [("id", JsValue.num 7)])

/-- A concrete boundary oracle. -/
def sampleBoundary : Nat → String := fun _ => "bnd"

/-!  Helper lemmas shared by the claim theorems. -/

theorem mk_ne_empty {t : List Char} (h : t ≠ []) : String.mk t ≠ "" :=
  fun he => h (congrArg String.data he)

theorem data_ne_nil_of_ne_empty {s : String} (h : s ≠ "") : s.data ≠ [] := by
  intro hd; apply h; cases s; cases hd; rfl

theorem takeCapture_ne_empty {cs : List Char} {s : String}
    (h : takeCapture cs = some s) : s ≠ "" := by
  unfold takeCapture at h
  split at h
  · exact absurd h (by simp)
  · next hne =>
    cases h
    exact mk_ne_empty (by simpa [List.isEmpty_iff] using hne)

theorem orElse_eq_some {α : Type} {a b : Option α} {x : α}
    (h : (a <|> b) = some x) : a = some x ∨ b = some x := by
  cases a with
  | none => right; simpa using h
  | some y => left; simpa using h

theorem afterEq_ne_empty {cs : List Char} {s : String}
    (h : afterEq cs = some s) : s ≠ "" := by
  unfold afterEq at h
  rcases orElse_eq_some h with h1 | h2
  · split at h1
    · exact takeCapture_ne_empty h1
    · exact absurd h1 (by simp)
  · rcases orElse_eq_some h2 with h3 | h4
    · split at h3
      · exact takeCapture_ne_empty h3
      · exact absurd h3 (by simp)
    · exact takeCapture_ne_empty h4

theorem matchCDAt_ne_empty {cs : List Char} {s : String}
    (h : matchCDAt cs = some s) : s ≠ "" := by
  unfold matchCDAt at h
  split at h
  · exact absurd h (by simp)
  · split at h
    · exact afterEq_ne_empty h
    · exact afterEq_ne_empty h
    · exact absurd h (by simp)

theorem scanCD_ne_empty : ∀ {cs : List Char} {s : String},
    scanCD cs = some s → s ≠ "" := by
  intro cs
  induction cs with
  | nil => intro s h; exact absurd h (by simp [scanCD])
  | cons c rest ih =>
    intro s h
    unfold scanCD at h
    rcases orElse_eq_some h with h1 | h2
    · exact matchCDAt_ne_empty h1
    · exact ih h2

theorem decodeLoop_ne_nil {fuel : Nat} {c : Char} {cs out : List Char}
    (h : decodeLoop fuel (c :: cs) = some out) : out ≠ [] := by
  cases fuel with
  | zero => exact absurd h (by simp [decodeLoop])
  | succ f =>
    unfold decodeLoop at h
    simp only [bind, Option.bind_eq_some] at h
    obtain ⟨⟨ch, rest⟩, _, h2⟩ := h
    obtain ⟨o2, _, h4⟩ := h2
    simp only [pure, Option.some.injEq] at h4
    subst h4
    simp

theorem parseCD_ne_some_empty (header : Option String) :
    parseContentDispositionFilename header ≠ some "" := by
  intro h
  unfold parseContentDispositionFilename at h
  split at h
  · exact absurd h (by simp)
  · split at h
    · exact absurd h (by simp)
    · split at h
      · exact absurd h (by simp)
      · next raw hscan =>
        have hraw : raw ≠ "" := scanCD_ne_empty hscan
        split at h
        · next s hdec =>
          cases h
          unfold decodeUriComponentJs at hdec
          obtain ⟨out, h1, h2⟩ := Option.map_eq_some'.mp hdec
          have hd : raw.data ≠ [] := data_ne_nil_of_ne_empty hraw
          cases hdata : raw.data with
          | nil => exact hd hdata
          | cons c cs =>
            rw [hdata] at h1
            exact mk_ne_empty (decodeLoop_ne_nil h1) h2
        · cases h
          exact hraw rfl

theorem fileNameFromUrl_ne_some_empty (url : String) :
    fileNameFromUrl url ≠ some "" := by
  intro h
  unfold fileNameFromUrl at h
  split at h
  · exact absurd h (by simp)
  · split at h
    · exact absurd h (by simp)
    · split at h
      · exact absurd h (by simp)
      · next heq => cases h; exact heq rfl

theorem deriveFileName_ne_empty (fileNameOverride : String)
    (headers : List (String × HeaderValue)) (attachmentUrl : String) :
    deriveFileName fileNameOverride headers attachmentUrl ≠ "" := by
  unfold deriveFileName
  split
  · cases hcd : parseContentDispositionFilename (getHeaderValue headers "content-disposition") with
    | some s =>
      have hs : s ≠ "" := by
        intro he; subst he; exact parseCD_ne_some_empty _ hcd
      simp [orElseFalsy, hs]
    | none =>
      simp only [orElseFalsy]
      cases hu : fileNameFromUrl attachmentUrl with
      | some m =>
        have hm : m ≠ "" := by
          intro he; subst he; exact fileNameFromUrl_ne_some_empty _ hu
        simp [hm]
      | none => simp
  · next h => exact h

theorem executeLoop_eq_loopResults (baseUrl : String)
    (download : Nat → Except String DownloadResponse)
    (submit : Nat → SubmitRequest → Except String JsValue)
    (boundary : Nat → String) (items : List Item) : ∀ idx : Nat,
    executeLoop true baseUrl download submit boundary idx items =
      Except.ok (loopResults baseUrl download submit boundary idx items) := by
  induction items with
  | nil => intro idx; rfl
  | cons item rest ih =>
    intro idx
    simp only [executeLoop, loopResults, itemOutcome]
    cases h : processItem baseUrl item (boundary idx) (download idx) (submit idx) with
    | ok j => rw [ih (idx + 1)]; rfl
    | error m => simp only [if_pos]; rw [ih (idx + 1)]; rfl

theorem loopResults_length (baseUrl : String)
    (download : Nat → Except String DownloadResponse)
    (submit : Nat → SubmitRequest → Except String JsValue)
    (boundary : Nat → String) (items : List Item) : ∀ idx : Nat,
    (loopResults baseUrl download submit boundary idx items).length = items.length := by
  induction items with
  | nil => intro idx; rfl
  | cons item rest ih =>
    intro idx
    simp only [loopResults, List.length_cons, ih (idx + 1)]

theorem loopResults_getElem? (baseUrl : String)
    (download : Nat → Except String DownloadResponse)
    (submit : Nat → SubmitRequest → Except String JsValue)
    (boundary : Nat → String) (items : List Item) : ∀ idx i : Nat,
    (loopResults baseUrl download submit boundary idx items)[i]? =
      (items[i]?).map (fun it =>
        itemOutcome baseUrl (idx + i) it (boundary (idx + i)) (download (idx + i))
          (submit (idx + i))) := by
  induction items with
  | nil => intro idx i; simp [loopResults]
  | cons item rest ih =>
    intro idx i
    cases i with
    | zero => simp [loopResults]
    | succ j =>
      simp only [loopResults, List.getElem?_cons_succ, ih (idx + 1) j]
      have harith : idx + 1 + j = idx + (j + 1) := by omega
      rw [harith]

theorem head?_dropWhile_eq_false {p : Char → Bool} {l : List Char} {a : Char}
    (h : (l.dropWhile p).head? = some a) : p a = false := by
  have hx := List.head?_dropWhile_not p l
  rw [h] at hx
  exact hx

theorem sanitizeBaseUrl_strips (url : String) :
    (∃ n : Nat, url.data = (sanitizeBaseUrl url).data ++ List.replicate n '/') ∧
    (sanitizeBaseUrl url).data.getLast? ≠ some '/' := by
  constructor
  · refine ⟨(url.data.reverse.takeWhile (fun c => c == '/')).length, ?_⟩
    have hrep : url.data.reverse.takeWhile (fun c => c == '/') =
        List.replicate (url.data.reverse.takeWhile (fun c => c == '/')).length '/' := by
      apply List.eq_replicate_of_mem
      intro b hb
      have := List.mem_takeWhile_imp hb
      simpa using this
    calc url.data = url.data.reverse.reverse := by rw [List.reverse_reverse]
      _ = (url.data.reverse.takeWhile (fun c => c == '/')
            ++ url.data.reverse.dropWhile (fun c => c == '/')).reverse := by
            rw [List.takeWhile_append_dropWhile]
      _ = (url.data.reverse.dropWhile (fun c => c == '/')).reverse
            ++ (url.data.reverse.takeWhile (fun c => c == '/')).reverse := by
            rw [List.reverse_append]
      _ = (sanitizeBaseUrl url).data
            ++ List.replicate (url.data.reverse.takeWhile (fun c => c == '/')).length '/' := by
            rw [sanitizeBaseUrl, hrep]
            simp [List.reverse_replicate]
  · intro h
    have h2 : (url.data.reverse.dropWhile (fun c => c == '/')).head? = some '/' := by
      have : (sanitizeBaseUrl url).data =
          (url.data.reverse.dropWhile (fun c => c == '/')).reverse := rfl
      rw [this, List.getLast?_reverse] at h
      exact h
    have := head?_dropWhile_eq_false h2
    simp at this

theorem mem_of_mem_dropWhile {p : Char → Bool} :
    ∀ {l : List Char} {c : Char}, c ∈ l.dropWhile p → c ∈ l := by
  intro l
  induction l with
  | nil => intro c h; exact absurd h (by simp)
  | cons a rest ih =>
    intro c h
    rw [List.dropWhile_cons] at h
    split at h
    · exact List.mem_cons_of_mem a (ih h)
    · exact h

theorem schemeSplitAux_no_colon :
    ∀ cs : List Char, (∀ c ∈ cs, c ≠ ':') → schemeSplitAux cs = none := by
  intro cs
  induction cs with
  | nil => intro _; rfl
  | cons c rest ih =>
    intro h
    simp only [schemeSplitAux]
    rw [if_neg (h c (List.mem_cons_self c rest))]
    split
    · rw [ih (fun x hx => h x (List.mem_cons_of_mem c hx))]
    · rfl

theorem schemeSplit_no_colon (cs : List Char) (h : ∀ c ∈ cs, c ≠ ':') :
    schemeSplit cs = none := by
  cases cs with
  | nil => rfl
  | cons c rest =>
    simp only [schemeSplit]
    rw [schemeSplitAux_no_colon rest (fun x hx => h x (List.mem_cons_of_mem c hx))]
    split <;> rfl

theorem urlPathname_no_colon (url : String) (h : ∀ c ∈ url.data, c ≠ ':') :
    urlPathname url = none := by
  have hclean : ∀ c ∈ (((url.data.dropWhile (fun c => c.toNat ≤ 32)).reverse.dropWhile
      (fun c => c.toNat ≤ 32)).reverse).filter
      (fun c => c != '\t' && c != '\n' && c != '\x0d'), c ≠ ':' := by
    intro c hc
    apply h
    have hc1 := List.mem_of_mem_filter hc
    rw [List.mem_reverse] at hc1
    have hc2 := mem_of_mem_dropWhile hc1
    rw [List.mem_reverse] at hc2
    exact mem_of_mem_dropWhile hc2
  simp only [urlPathname]
  rw [schemeSplit_no_colon _ hclean]

theorem fileNameFromUrl_no_colon (url : String) (h : ∀ c ∈ url.data, c ≠ ':') :
    fileNameFromUrl url = none := by
  unfold fileNameFromUrl
  rw [urlPathname_no_colon url h]

theorem buildSubmission_ok {baseUrl : String} {item : Item} {boundary : String}
    {resp : DownloadResponse} {req : SubmitRequest}
    (h : buildSubmission baseUrl item boundary resp = Except.ok req) :
    ∃ ca tp,
      parseJsonField (keyRead item.additionalFields.contentAttributes) "Content Attributes" =
        Except.ok ca ∧
      parseJsonField (keyRead item.additionalFields.templateParams) "Template Params" =
        Except.ok tp ∧
      req = SubmitRequest.mk "POST"
        (baseUrl ++ "/api/v1/accounts/" ++ toString item.accountId ++ "/conversations/"
          ++ toString item.conversationId ++ "/messages")
        [("content-type", "multipart/form-data; boundary=" ++ boundary)]
        ([("attachments[]", FormPart.file
            (deriveFileName item.fileNameOverride resp.headers item.attachmentUrl)
            (deriveMimeType item.additionalFields.attachmentMimeType resp.headers)
            (toBuffer resp.body))]
          ++ contentParts (keyRead item.additionalFields.content)
          ++ messageTypeParts (keyRead item.additionalFields.messageType)
          ++ privateParts item.additionalFields.privateFlag
          ++ contentTypeParts (keyRead item.additionalFields.contentType)
          ++ jsonFieldParts "content_attributes" ca
          ++ jsonFieldParts "template_params" tp) := by
  unfold buildSubmission at h
  cases hca : parseJsonField (keyRead item.additionalFields.contentAttributes)
      "Content Attributes" with
  | error m =>
    rw [hca] at h
    exact absurd h (by simp [Bind.bind, Except.bind])
  | ok ca =>
    rw [hca] at h
    cases htp : parseJsonField (keyRead item.additionalFields.templateParams)
        "Template Params" with
    | error m =>
      rw [htp] at h
      exact absurd h (by simp [Bind.bind, Except.bind])
    | ok tp =>
      rw [htp] at h
      refine ⟨ca, tp, rfl, rfl, ?_⟩
      simp only [Bind.bind, Except.bind, pure, Except.pure, Except.ok.injEq] at h
      exact h.symm

/-- C2: the derived file name follows the precedence override,
content-disposition header, last non-empty URL path segment, literal
attachment; with no override, no usable header, and URL
https://x.test/files/img.png?x=1 the derived name is img.png (query
excluded). -/
theorem c2_file_name_precedence (fileNameOverride : String)
    (headers : List (String × HeaderValue)) (attachmentUrl : String) :
    (fileNameOverride ≠ "" →
      deriveFileName fileNameOverride headers attachmentUrl = fileNameOverride) ∧
    (fileNameOverride = "" → ∀ n,
      parseContentDispositionFilename (getHeaderValue headers "content-disposition") = some n →
      deriveFileName fileNameOverride headers attachmentUrl = n) ∧
    (fileNameOverride = "" →
      parseContentDispositionFilename (getHeaderValue headers "content-disposition") = none →
      ∀ m, fileNameFromUrl attachmentUrl = some m →
      deriveFileName fileNameOverride headers attachmentUrl = m) ∧
    (fileNameOverride = "" →
      parseContentDispositionFilename (getHeaderValue headers "content-disposition") = none →
      fileNameFromUrl attachmentUrl = none →
      deriveFileName fileNameOverride headers attachmentUrl = "attachment") ∧
    deriveFileName "" [] "https://x.test/files/img.png?x=1" = "img.png" := by
  refine ⟨?_, ?_, ?_, ?_, ?_⟩
  · intro h
    simp [deriveFileName, h]
  · intro h0 n hn
    have hne : n ≠ "" := by
      intro he; subst he; exact parseCD_ne_some_empty _ hn
    simp [deriveFileName, h0, hn, orElseFalsy, hne]
  · intro h0 hcd m hm
    have hne : m ≠ "" := by
      intro he; subst he; exact fileNameFromUrl_ne_some_empty _ hm
    simp [deriveFileName, h0, hcd, hm, orElseFalsy, hne]
  · intro h0 hcd hu
    simp [deriveFileName, h0, hcd, hu, orElseFalsy]
  · rfl

/-- C2 witness: the header-derived branch at a concrete input. -/
theorem c2_witness :
    deriveFileName ""
      [("Content-Disposition", HeaderValue.str "inline; filename=\x22a b.txt\x22")]
      "https://x.test/z.bin" = "a b.txt" :=
  (c2_file_name_precedence ""
    [("Content-Disposition", HeaderValue.str "inline; filename=\x22a b.txt\x22")]
    "https://x.test/z.bin").2.1 rfl "a b.txt" (by rfl)

/-- C4: the MIME type follows the precedence explicit override,
content-type response header, literal application/octet-stream, the
override winning over the header and the header over the default. -/
theorem c4_mime_type_precedence (attachmentMimeType : Option String)
    (headers : List (String × HeaderValue)) :
    (∀ m, attachmentMimeType = some m → m ≠ "" →
      deriveMimeType attachmentMimeType headers = m) ∧
    ((attachmentMimeType = none ∨ attachmentMimeType = some "") →
      ∀ ct, getHeaderValue headers "content-type" = some ct → ct ≠ "" →
      deriveMimeType attachmentMimeType headers = ct) ∧
    ((attachmentMimeType = none ∨ attachmentMimeType = some "") →
      (getHeaderValue headers "content-type" = none ∨
        getHeaderValue headers "content-type" = some "") →
      deriveMimeType attachmentMimeType headers = "application/octet-stream") := by
  refine ⟨?_, ?_, ?_⟩
  · intro m hm hne
    simp [deriveMimeType, hm, orElseFalsy, hne]
  · intro hover ct hct hne
    rcases hover with h | h <;> simp [deriveMimeType, h, hct, orElseFalsy, hne]
  · intro hover hct
    rcases hover with h | h <;> rcases hct with h2 | h2 <;>
      simp [deriveMimeType, h, h2, orElseFalsy]

/-- C4 witness: the header branch and default branch at concrete
inputs. -/
theorem c4_witness :
    deriveMimeType none [("Content-Type", HeaderValue.str "image/gif")] = "image/gif" ∧
    deriveMimeType (some "") [] = "application/octet-stream" :=
  ⟨(c4_mime_type_precedence none [("Content-Type", HeaderValue.str "image/gif")]).2.1
      (Or.inl rfl) "image/gif" (by rfl) (by decide),
    (c4_mime_type_precedence (some "") []).2.2 (Or.inr rfl) (Or.inl rfl)⟩

/-- C6: empty content, contentType and messageType values are not
appended to the form, while the private field is appended on key
presence with the rendering of its boolean coercion, so a present false
still appends the string false and an absent key appends nothing. -/
theorem c6_form_field_presence :
    contentParts JsValue.undefined = [] ∧
    contentParts (JsValue.str "") = [] ∧
    contentParts (JsValue.str "hello") = [("content", FormPart.text "hello")] ∧
    messageTypeParts (JsValue.str "") = [] ∧
    messageTypeParts JsValue.undefined = [] ∧
    messageTypeParts (JsValue.str "incoming") =
      [("message_type", FormPart.text "incoming")] ∧
    contentTypeParts (JsValue.str "") = [] ∧
    contentTypeParts JsValue.undefined = [] ∧
    (∀ v, privateParts (some v) =
      [("private", FormPart.text (if jsTruthy v then "true" else "false"))]) ∧
    privateParts (some (JsValue.bool false)) = [("private", FormPart.text "false")] ∧
    privateParts (some (JsValue.bool true)) = [("private", FormPart.text "true")] ∧
    privateParts none = [] :=
  ⟨rfl, rfl, rfl, rfl, rfl, rfl, rfl, rfl, fun _ => rfl, rfl, rfl, rfl⟩

/-- C6 witness: the key-presence rule applied at a present falsy
non-boolean value. -/
theorem c6_witness :
    privateParts (some (JsValue.num 0)) = [("private", FormPart.text "false")] :=
  (c6_form_field_presence.2.2.2.2.2.2.2.2.1 (JsValue.num 0)).trans (by rfl)

/-- C8: URL-derived filename extraction tolerates malformed URLs (in
particular any string with no colon, which cannot carry a scheme) by
yielding no match, modelling the caught TypeError, rather than
propagating an exception. -/
theorem c8_malformed_url_tolerance :
    (∀ url : String, (∀ c ∈ url.data, c ≠ ':') → fileNameFromUrl url = none) ∧
    fileNameFromUrl "not a url" = none ∧
    fileNameFromUrl "" = none := by
  refine ⟨fileNameFromUrl_no_colon, ?_, ?_⟩ <;> rfl

/-- C8 witness: a concrete malformed input. -/
theorem c8_witness : fileNameFromUrl "hello world" = none :=
  c8_malformed_url_tolerance.1 "hello world" (by decide)

/-- C9: response-header lookup is case-insensitive on the name and takes
the first matching key; an array value yields its first element with an
empty array yielding nothing, null or undefined yield nothing, and any
other value is coerced to a string. -/
theorem c9_header_lookup :
    (∀ (k : String) (v : HeaderValue) (rest : List (String × HeaderValue)) (name : String),
      lowerString k = lowerString name →
      getHeaderValue ((k, v) :: rest) name = headerExtract v) ∧
    (∀ (k : String) (v : HeaderValue) (rest : List (String × HeaderValue)) (name : String),
      lowerString k ≠ lowerString name →
      getHeaderValue ((k, v) :: rest) name = getHeaderValue rest name) ∧
    (∀ name, getHeaderValue [] name = none) ∧
    headerExtract (HeaderValue.arr []) = none ∧
    (∀ s ss, headerExtract (HeaderValue.arr (s :: ss)) = some s) ∧
    headerExtract HeaderValue.null = none ∧
    headerExtract HeaderValue.undefined = none ∧
    (∀ s, headerExtract (HeaderValue.str s) = some s) ∧
    (∀ n : Int, headerExtract (HeaderValue.num n) = some (toString n)) ∧
    (∀ b, headerExtract (HeaderValue.bool b) = some (if b then "true" else "false")) ∧
    getHeaderValue [("Content-Type", HeaderValue.str "image/png")] "content-type" =
      some "image/png" := by
  refine ⟨?_, ?_, fun _ => rfl, rfl, fun _ _ => rfl, rfl, rfl, fun _ => rfl,
    fun _ => rfl, fun _ => rfl, ?_⟩
  · intro k v rest name h
    unfold getHeaderValue
    rw [List.find?_cons_of_pos _ (by simp [h])]
  · intro k v rest name h
    unfold getHeaderValue
    rw [List.find?_cons_of_neg _ (by simp [h])]
  · rfl

/-- C9 witness: case-insensitive first match with an array value. -/
theorem c9_witness :
    getHeaderValue [("X-Thing", HeaderValue.arr ["a", "b"])] "x-thing" = some "a" :=
  (c9_header_lookup.1 "X-Thing" (HeaderValue.arr ["a", "b"]) [] "x-thing"
    (by decide)).trans (by rfl)

/-- C10: the derived file name is always non-empty: neither helper
parser can return the empty string, the precedence chain bottoms out at
the literal attachment, and the assembled file part carries exactly that
derived name. -/
theorem c10_derived_name_nonempty :
    (∀ header : Option String, parseContentDispositionFilename header ≠ some "") ∧
    (∀ url : String, fileNameFromUrl url ≠ some "") ∧
    (∀ (fileNameOverride : String) (headers : List (String × HeaderValue))
      (attachmentUrl : String),
      deriveFileName fileNameOverride headers attachmentUrl ≠ "") ∧
    (∀ (baseUrl : String) (item : Item) (boundary : String) (resp : DownloadResponse)
      (req : SubmitRequest), buildSubmission baseUrl item boundary resp = Except.ok req →
      req.form.head? = some ("attachments[]",
        FormPart.file (deriveFileName item.fileNameOverride resp.headers item.attachmentUrl)
          (deriveMimeType item.additionalFields.attachmentMimeType resp.headers)
          (toBuffer resp.body)) ∧
      deriveFileName item.fileNameOverride resp.headers item.attachmentUrl ≠ "") := by
  refine ⟨parseCD_ne_some_empty, fileNameFromUrl_ne_some_empty, deriveFileName_ne_empty, ?_⟩
  intro baseUrl item boundary resp req h
  obtain ⟨ca, tp, _, _, hreq⟩ := buildSubmission_ok h
  subst hreq
  exact ⟨rfl, deriveFileName_ne_empty _ _ _⟩

/-- C10 witness: the bottom of the precedence chain at a concrete
input. -/
theorem c10_witness :
    deriveFileName "" [] "" = "attachment" ∧ deriveFileName "" [] "" ≠ "" :=
  ⟨by rfl, c10_derived_name_nonempty.2.2.1 "" [] ""⟩

/-- C3: content-disposition parsing applies the case-insensitive pattern
with the first capture group percent-decoded, falling back to the raw
token when decoding fails; the quoted example yields report final.pdf,
the UTF-8 example decodes to rep ort.pdf, and an absent header or a
non-matching header yields nothing. -/
theorem c3_content_disposition_parsing :
    parseContentDispositionFilename none = none ∧
    parseContentDispositionFilename (some "") = none ∧
    parseContentDispositionFilename (some "attachment; filename=\x22report final.pdf\x22") =
      some "report final.pdf" ∧
    parseContentDispositionFilename (some "filename*=UTF-8\x27\x27rep%20ort.pdf") =
      some "rep ort.pdf" ∧
    (∀ h : String, h ≠ "" → scanCD h.data = none →
      parseContentDispositionFilename (some h) = none) ∧
    (∀ h raw : String, h ≠ "" → scanCD h.data = some raw →
      decodeUriComponentJs raw = none →
      parseContentDispositionFilename (some h) = some raw) ∧
    (∀ h raw dec : String, h ≠ "" → scanCD h.data = some raw →
      decodeUriComponentJs raw = some dec →
      parseContentDispositionFilename (some h) = some dec) := by
  refine ⟨rfl, rfl, by rfl, by rfl, ?_, ?_, ?_⟩
  · intro h hne hscan
    simp [parseContentDispositionFilename, hne, hscan]
  · intro h raw hne hscan hdec
    simp [parseContentDispositionFilename, hne, hscan, hdec]
  · intro h raw dec hne hscan hdec
    simp [parseContentDispositionFilename, hne, hscan, hdec]

/-- C3 witness: the no-match case at a concrete header. -/
theorem c3_witness : parseContentDispositionFilename (some "attachment") = none :=
  c3_content_disposition_parsing.2.2.2.2.1 "attachment" (by decide) (by rfl)

/-- C5: optional JSON fields are omitted when empty or absent, used
as-is when already structured, trimmed and parsed when strings with a
parse failure raising an error naming the field, and rejected with an
error for any other type. -/
theorem c5_json_field_parsing (label : String) :
    parseJsonField JsValue.undefined label = Except.ok none ∧
    parseJsonField JsValue.null label = Except.ok none ∧
    parseJsonField (JsValue.str "") label = Except.ok none ∧
    (∀ s : String, s ≠ "" → jsTrim s = "" →
      parseJsonField (JsValue.str s) label = Except.ok none) ∧
    (∀ fs, parseJsonField (JsValue.obj fs) label = Except.ok (some (JsValue.obj fs))) ∧
    (∀ es, parseJsonField (JsValue.arr es) label = Except.ok (some (JsValue.arr es))) ∧
    (∀ (s : String) (v : JsValue), s ≠ "" → jsTrim s ≠ "" → jsonParse (jsTrim s) = some v →
      parseJsonField (JsValue.str s) label = Except.ok (some v)) ∧
    (∀ s : String, s ≠ "" → jsTrim s ≠ "" → jsonParse (jsTrim s) = none →
      parseJsonField (JsValue.str s) label =
        Except.error ("Cannot parse " ++ label ++ " as JSON.")) ∧
    (∀ q : Rat, parseJsonField (JsValue.num q) label =
      Except.error ("Unsupported " ++ label ++ " value type.")) ∧
    (∀ b : Bool, parseJsonField (JsValue.bool b) label =
      Except.error ("Unsupported " ++ label ++ " value type.")) ∧
    parseJsonField (JsValue.str "\x7b\x22a\x22:1\x7d") "Content Attributes" =
      Except.ok (some (JsValue.obj [("a", JsValue.num 1)])) ∧
    parseJsonField (JsValue.str "not json") "Content Attributes" =
      Except.error "Cannot parse Content Attributes as JSON." := by
  refine ⟨rfl, rfl, rfl, ?_, fun _ => rfl, fun _ => rfl, ?_, ?_, fun _ => rfl,
    fun _ => rfl, by rfl, by rfl⟩
  · intro s h1 h2
    simp [parseJsonField, h1, h2]
  · intro s v h1 h2 h3
    simp [parseJsonField, h1, h2, h3]
  · intro s h1 h2 h3
    simp [parseJsonField, h1, h2, h3]

/-- C5 witness: trimming and parsing of a concrete string value. -/
theorem c5_witness :
    parseJsonField (JsValue.str " true ") "Template Params" =
      Except.ok (some (JsValue.bool true)) :=
  (c5_json_field_parsing "Template Params").2.2.2.2.2.2.1 " true " (JsValue.bool true)
    (by decide) (by decide) (by rfl)

/-- C7: an absent or falsy credential baseUrl fails the whole batch with
the configuration error before any item is processed and independently
of the transport; otherwise trailing slashes are stripped from the base
URL and each assembled submission is a POST to the messages endpoint of
the target conversation carrying the form boundary header. -/
theorem c7_credential_validation_and_submit :
    (∀ (continueOnFail : Bool) (credentialsUrl : JsValue) (items : List Item)
      (download : Nat → Except String DownloadResponse)
      (submit : Nat → SubmitRequest → Except String JsValue)
      (boundary : Nat → String),
      jsTruthy credentialsUrl = false →
      execute continueOnFail credentialsUrl items download submit boundary =
        Except.error "ChatWoot API URL is missing in credentials.") ∧
    (∀ url : String,
      (∃ n : Nat, url.data = (sanitizeBaseUrl url).data ++ List.replicate n '/') ∧
      (sanitizeBaseUrl url).data.getLast? ≠ some '/') ∧
    (∀ (baseUrl : String) (item : Item) (boundary : String) (resp : DownloadResponse)
      (req : SubmitRequest),
      buildSubmission baseUrl item boundary resp = Except.ok req →
      req.method = "POST" ∧
      req.url = baseUrl ++ "/api/v1/accounts/" ++ toString item.accountId ++
        "/conversations/" ++ toString item.conversationId ++ "/messages" ∧
      req.headers = [("content-type", "multipart/form-data; boundary=" ++ boundary)]) := by
  refine ⟨?_, sanitizeBaseUrl_strips, ?_⟩
  · intro continueOnFail credentialsUrl items download submit boundary h
    unfold execute
    rw [if_neg]
    simp [h]
  · intro baseUrl item boundary resp req h
    obtain ⟨ca, tp, _, _, hreq⟩ := buildSubmission_ok h
    subst hreq
    exact ⟨rfl, rfl, rfl⟩

/-- C7 witness: the configuration error at a concrete falsy credential,
and slash stripping at a concrete base URL. -/
theorem c7_witness :
    execute true JsValue.undefined [sampleItemA] sampleDownload sampleSubmit sampleBoundary =
      Except.error "ChatWoot API URL is missing in credentials." ∧
    sanitizeBaseUrl "https://cw.example///" = "https://cw.example" :=
  ⟨c7_credential_validation_and_submit.1 true JsValue.undefined [sampleItemA]
      sampleDownload sampleSubmit sampleBoundary (by rfl),
    by rfl⟩

/-- C1: in failure-tolerant mode the node emits exactly one result per
input item in input order, each item determined only by its own
download, form assembly and submission, with a failed item contributing
its error-message object and not affecting subsequent items. -/
theorem c1_failure_tolerant_results (credentialsUrl : JsValue) (items : List Item)
    (download : Nat → Except String DownloadResponse)
    (submit : Nat → SubmitRequest → Except String JsValue)
    (boundary : Nat → String) (h : jsTruthy credentialsUrl = true) :
    execute true credentialsUrl items download submit boundary =
      Except.ok (loopResults (sanitizeBaseUrl (jsToString credentialsUrl))
        download submit boundary 0 items) ∧
    (loopResults (sanitizeBaseUrl (jsToString credentialsUrl))
      download submit boundary 0 items).length = items.length ∧
    (∀ i : Nat,
      (loopResults (sanitizeBaseUrl (jsToString credentialsUrl))
        download submit boundary 0 items)[i]? =
      (items[i]?).map (fun it =>
        itemOutcome (sanitizeBaseUrl (jsToString credentialsUrl)) i it (boundary i)
          (download i) (submit i))) := by
  refine ⟨?_, loopResults_length _ _ _ _ items 0, ?_⟩
  · unfold execute
    rw [if_pos h]
    exact executeLoop_eq_loopResults _ _ _ _ items 0
  · intro i
    rw [loopResults_getElem? _ _ _ _ items 0 i]
    simp

/-- C1 witness: a batch where item 0 fails to download and item 1
succeeds, producing the error object then the response, in order. -/
theorem c1_witness :
    execute true (JsValue.str "https://cw.example/") [sampleItemA, sampleItemB]
      sampleDownload sampleSubmit sampleBoundary =
    Except.ok
      [SubmissionResult.mk (JsValue.obj [("error", JsValue.str "getaddrinfo ENOTFOUND")]) 0,
        SubmissionResult.mk (JsValue.obj [("id", JsValue.num 7)]) 1] :=
  ((c1_failure_tolerant_results (JsValue.str "https://cw.example/")
    [sampleItemA, sampleItemB] sampleDownload sampleSubmit sampleBoundary (by rfl)).1).trans
    (by rfl)

end ChatWoot
